import Mathlib

set_option maxHeartbeats 1000000

/-!
# Verification of the fault-injection scenario mutator

Shallow embedding of `src/scenario/fault_injector.py` (class `FaultInjector`)
and of the scenario validator it provides, together with proofs about the
behaviour of `inject_fault_event` and `validate_scenario`.

Modelling conventions:
* JSON documents are embedded as Lean structures with the wire-format field
  names (`no`, `test_procedure_order`, `action`, `start_trigger`,
  `condition_groups`, ...).  A dictionary key that the code reads with
  `.get(k, default)` and that is always present in the documents the code
  produces is modelled as a total field; the optional `start_trigger` key is
  an `Option`, and dictionary values of heterogeneous type (`value` fields)
  are a small sum type `JsonVal`.
* Python floats appear only as the `delay` payload, which the code stores and
  compares but never computes with, so delays are embedded as `Int`.
* In-place mutation of the deep copy is embedded as pure rebuilding of the
  affected lists; `copy.deepcopy` of a pure value is the identity.
* The distinct `ValueError` messages raised by `inject_fault_event` are
  embedded as the constructors of `InjectError`.
-/

/-- A scalar stored in a `value` field of a parameter dictionary: either a
Python `int` or a Python `str`.  (`isinstance(v, int)` tests in the source
correspond to matching `vInt`.) -/
inductive JsonVal where
  | vInt (n : Int)
  | vStr (s : String)
  deriving DecidableEq

/-- Python `str(...)` on the values representable as `JsonVal`. -/
def pyStr : JsonVal → String
  | JsonVal.vInt n => toString n
  | JsonVal.vStr s => s

/-- A named parameter dictionary `{rule?, name, value, unit}`.  The `rule` key
is present on trigger-condition parameters (`"equalTo"`) and absent on action
parameters; the code never reads it. -/
structure Param where
  rule : Option String
  name : String
  value : JsonVal
  unit : String
  deriving DecidableEq

/-- One trigger condition: `{type, params, delay}`. -/
structure Condition where
  type : String
  params : List Param
  delay : Int
  deriving DecidableEq

/-- One condition group: `{conditions}`. -/
structure ConditionGroup where
  conditions : List Condition
  deriving DecidableEq

/-- A `start_trigger` value: `{condition_groups}`. -/
structure StartTrigger where
  condition_groups : List ConditionGroup
  deriving DecidableEq

/-- An event's `action` value: `{type, params}`. -/
structure EventAction where
  type : String
  params : List Param
  deriving DecidableEq

/-- One entry of an event's `criteria` list: `{target_name, expressions}`.
The code only writes this field, never reads it. -/
structure Criterion where
  target_name : String
  expressions : List String
  deriving DecidableEq

/-- One event of an actor timeline. -/
structure Event where
  no : Int
  times : Int
  action : EventAction
  start_trigger : Option StartTrigger
  criteria : List Criterion
  remarks : List String
  test_procedure_order : Int
  deriving DecidableEq

/-- One entry of the scenario's `story` array: `{actor_name, events}`. -/
structure ActorStory where
  actor_name : String
  events : List Event
  deriving DecidableEq

/-- The root scenario document: `{scenario_summary, variation, story}`. -/
structure Scenario where
  scenario_summary : String
  variation : String
  story : List ActorStory
  deriving DecidableEq

/-- The `trigger_info` dictionary consumed by `inject_fault_event`; all keys
are read with `.get`, so each is optional. -/
structure TriggerInfo where
  signal_name : Option String
  value : Option JsonVal
  action_type : Option String
  target : Option String
  deriving DecidableEq

/-- Does `needle` occur at the head of the second list? (helper for the
Python substring test `needle in hay`). -/
def leadMatch : List Char → List Char → Bool
  | [], _ => true
  | _ :: _, [] => false
  | a :: as, b :: bs => if a = b then leadMatch as bs else false

/-- Does `needle` occur anywhere in the second list? -/
def hasSubList (needle : List Char) : List Char → Bool
  | [] => leadMatch needle []
  | b :: bs => leadMatch needle (b :: bs) || hasSubList needle bs

/-- Python's substring containment test `needle in hay` on strings. -/
def strContainsSub (hay needle : String) : Bool :=
  hasSubList needle.toList hay.toList

/-- The initial `value` action parameter built by `_create_fault_event`:
`str(trigger_info["value"])` if the key is present, else the default `"1"`. -/
def fault_value_param (trigger_info : TriggerInfo) : Param :=
  match trigger_info.value with
  | some v => { rule := none, name := "value", value := JsonVal.vStr (pyStr v), unit := "" }
  | none => { rule := none, name := "value", value := JsonVal.vStr "1", unit := "" }

/-- The action-parameter shaping chain of `_create_fault_event` (lines
158-206): start from the single `value` parameter, then dispatch on
`trigger_info.get("action_type", "")`.  (`trigger_info.target.getD ""` is
only reached when the `target` key is present, so the default is inert.) -/
def fault_action_params (trigger_info : TriggerInfo) : List Param :=
  let action_params := [fault_value_param trigger_info]
  let action_type := trigger_info.action_type.getD ""
  if strContainsSub action_type "communication_error" = true ∧ trigger_info.target ≠ none then
    action_params ++
      [{ rule := none, name := "target",
         value := JsonVal.vStr (trigger_info.target.getD ""), unit := "" }]
  else if action_type = "brake" then
    match action_params with
    | [] => action_params
    | p :: rest => { p with unit := "%" } :: rest
  else if action_type = "steering" then
    [{ rule := none, name := "target_rudder_angle",
       value := trigger_info.value.getD (JsonVal.vInt 45), unit := "deg" },
     { rule := none, name := "steering_time",
       value := JsonVal.vInt 1, unit := "s" }]
  else
    action_params

/-- The `start_trigger` of the created fault event (lines 120-145). -/
def fault_trigger (trigger_event_no : Int) (delay : Int) : StartTrigger :=
  { condition_groups := [
      { conditions := [
          { type := "event_state"
          , params := [
              { rule := some "equalTo", name := "event_no"
              , value := JsonVal.vInt trigger_event_no, unit := "" },
              { rule := some "equalTo", name := "state"
              , value := JsonVal.vStr "completeState", unit := "" } ]
          , delay := delay } ] } ] }

/-- `FaultInjector._create_fault_event` (lines 98-208); the base structure
and the subsequent `fault_event["action"]["params"] = action_params`
assignment are consolidated into one record. -/
def create_fault_event (trigger_info : TriggerInfo)
    (new_event_no trigger_event_no delay : Int) : Event :=
  { no := new_event_no
  , times := 1
  , action := { type := trigger_info.action_type.getD "can_communication_error"
              , params := fault_action_params trigger_info }
  , start_trigger := some (fault_trigger trigger_event_no delay)
  , criteria := [{ target_name := "-", expressions := [] }]
  , remarks := ["異常系トリガー: " ++ trigger_info.signal_name.getD "UNKNOWN"]
  , test_procedure_order := new_event_no }

/-- The enumerate loop inside `_find_insert_position`: `idx` is the index of
the head of the remaining list. -/
def find_pos_from (idx : Int) (after_event_no : Int) : List Event → Int
  | [] => -1
  | e :: es => if e.no = after_event_no then idx + 1 else find_pos_from (idx + 1) after_event_no es

/-- `FaultInjector._find_insert_position` (lines 82-96): index just after the
first event numbered `after_event_no`, or `-1`. -/
def find_insert_position (events : List Event) (after_event_no : Int) : Int :=
  find_pos_from 0 after_event_no events

/-- Python `list.insert(i, a)` (an index at or beyond the end appends). -/
def list_insert (i : Nat) (a : α) : List α → List α
  | [] => [a]
  | x :: xs =>
    match i with
    | 0 => a :: x :: xs
    | n + 1 => x :: list_insert n a xs

/-- Renumbering tail loop: assign `start_no, start_no + 1, ...` to the
successive events of the list. -/
def renumber_from (start_no : Int) : List Event → List Event
  | [] => []
  | e :: es => { e with no := start_no } :: renumber_from (start_no + 1) es

/-- `FaultInjector._renumber_events` (lines 210-223): events at positions
`≥ start_index` get `no := start_no + (position - start_index)`. -/
def renumber_events (events : List Event) (start_index : Nat) (start_no : Int) : List Event :=
  events.take start_index ++ renumber_from start_no (events.drop start_index)

/-- Per-parameter step of `_update_trigger_references` (lines 258-264): an
`event_no` parameter holding an `int` value `≥ inserted_event_no` is
incremented; everything else is untouched. -/
def update_param_ref (inserted_event_no : Int) (p : Param) : Param :=
  if p.name = "event_no" then
    match p.value with
    | JsonVal.vInt n =>
      if inserted_event_no ≤ n then { p with value := JsonVal.vInt (n + 1) } else p
    | JsonVal.vStr _ => p
  else p

/-- Per-condition step of `_update_trigger_references`: only conditions of
type `"event_state"` have their parameters visited. -/
def update_condition_refs (inserted_event_no : Int) (c : Condition) : Condition :=
  if c.type = "event_state" then
    { c with params := c.params.map (update_param_ref inserted_event_no) }
  else c

/-- `FaultInjector._update_trigger_references` (lines 240-264). -/
def update_trigger_references (inserted_event_no : Int) (trigger : StartTrigger) : StartTrigger :=
  { trigger with condition_groups := trigger.condition_groups.map (fun g =>
      { g with conditions := g.conditions.map (update_condition_refs inserted_event_no) }) }

/-- Per-event step of `_update_event_references`: events without a
`start_trigger` key are skipped. -/
def update_event_in_refs (inserted_event_no : Int) (e : Event) : Event :=
  match e.start_trigger with
  | some tr => { e with start_trigger := some (update_trigger_references inserted_event_no tr) }
  | none => e

/-- `FaultInjector._update_event_references` (lines 225-238). -/
def update_event_references (events : List Event) (inserted_event_no : Int) : List Event :=
  events.map (update_event_in_refs inserted_event_no)

/-- The `enumerate(events, 1)` loop of `_update_test_procedure_order`. -/
def set_tpo_from (k : Int) : List Event → List Event
  | [] => []
  | e :: es => { e with test_procedure_order := k } :: set_tpo_from (k + 1) es

/-- `FaultInjector._update_test_procedure_order` (lines 266-274). -/
def update_test_procedure_order (events : List Event) : List Event :=
  set_tpo_from 1 events

/-- The distinct `ValueError`s raised by `inject_fault_event`:
* `missingStorySection` — "シナリオにstoryセクションがありません"
* `actorNotFound` — "egoアクターのstoryが見つかりません"
* `emptyTimeline` — "イベントリストが空です"
* `anchorNotFound n` — "イベント番号 {n} が見つかりません" -/
inductive InjectError where
  | missingStorySection
  | actorNotFound
  | emptyTimeline
  | anchorNotFound (no : Int)
  deriving DecidableEq

/-- The body of `inject_fault_event` acting on the target event list (lines
47-76): emptiness check, anchor lookup, splice, renumber, reference rewrite
and procedural-order recompute, in source order. -/
def inject_into_events (trigger_info : TriggerInfo) (after_event_no : Int) (delay : Int)
    (events : List Event) : Except InjectError (List Event) :=
  if events = [] then Except.error InjectError.emptyTimeline
  else
    let insert_index := find_insert_position events after_event_no
    if insert_index = -1 then Except.error (InjectError.anchorNotFound after_event_no)
    else
      let fault_event := create_fault_event trigger_info
        (after_event_no + 1) after_event_no delay
      let events1 := list_insert insert_index.toNat fault_event events
      let events2 := renumber_events events1 (insert_index.toNat + 1) (after_event_no + 2)
      let events3 := update_event_references events2 (after_event_no + 1)
      let events4 := update_test_procedure_order events3
      Except.ok events4

/-- The ego-lookup loop of `inject_fault_event` (lines 37-45): the first
story entry whose `actor_name` is `"ego"` has its event list replaced by
`f`'s result; no such entry raises `actorNotFound`.  (The Python code
mutates `ego_story["events"]` in place through the alias into the copied
scenario; rebuilding the list at the found position is the pure rendering of
that update.) -/
def update_ego_story (f : List Event → Except InjectError (List Event)) :
    List ActorStory → Except InjectError (List ActorStory)
  | [] => Except.error InjectError.actorNotFound
  | t :: ts =>
    if t.actor_name = "ego" then
      (f t.events).map (fun es => { t with events := es } :: ts)
    else
      (update_ego_story f ts).map (fun ts1 => t :: ts1)

/-- `FaultInjector.inject_fault_event` (lines 16-80).  `copy.deepcopy` of a
pure value is the identity, so the function directly returns the rebuilt
scenario. -/
def inject_fault_event (base_scenario : Scenario) (trigger_info : TriggerInfo)
    (after_event_no : Int) (delay : Int) : Except InjectError Scenario :=
  if base_scenario.story = [] then Except.error InjectError.missingStorySection
  else
    match update_ego_story (inject_into_events trigger_info after_event_no delay)
        base_scenario.story with
    | Except.error e => Except.error e
    | Except.ok story1 => Except.ok { base_scenario with story := story1 }

/-- A finding of `validate_scenario`.  The constructors carry exactly the
data interpolated into the source's message strings:
* `notContiguous expected actual` — "イベント番号が不連続: 期待値={expected}, 実際={actual}"
* `danglingRef event_no ref_no` — "イベント{event_no}が存在しないイベント{ref_no}を参照" -/
inductive Violation where
  | notContiguous (expected actual : Int)
  | danglingRef (event_no ref_no : Int)
  deriving DecidableEq

/-- The contiguity loop of `validate_scenario` (lines 288-296) on one event
list, with running expected number `expected`. -/
def contiguityFrom (expected : Int) : List Event → List Violation
  | [] => []
  | e :: es =>
    (if e.no ≠ expected then [Violation.notContiguous expected e.no] else []) ++
      contiguityFrom (expected + 1) es

/-- Parameter walk of `_extract_referenced_events`: collect the `int` values
of parameters named `event_no`. -/
def extract_params_refs (ps : List Param) : List Int :=
  ps.filterMap (fun p =>
    if p.name = "event_no" then
      match p.value with
      | JsonVal.vInt n => some n
      | JsonVal.vStr _ => none
    else none)

/-- Condition step of `_extract_referenced_events`: only `"event_state"`
conditions contribute. -/
def extract_condition_refs (c : Condition) : List Int :=
  if c.type = "event_state" then extract_params_refs c.params else []

/-- Group step of `_extract_referenced_events`. -/
def extract_group_refs (g : ConditionGroup) : List Int :=
  (g.conditions.map extract_condition_refs).flatten

/-- `FaultInjector._extract_referenced_events` (lines 313-337). -/
def extract_referenced_events (trigger : StartTrigger) : List Int :=
  (trigger.condition_groups.map extract_group_refs).flatten

/-- Reference findings contributed by one event (lines 304-309): each
extracted number not among `event_numbers` and different from the sentinel
`0` yields one `danglingRef`. -/
def event_ref_errors (event_numbers : List Int) (e : Event) : List Violation :=
  match e.start_trigger with
  | none => []
  | some tr =>
    (extract_referenced_events tr).filterMap (fun ref_no =>
      if ref_no ∉ event_numbers ∧ ref_no ≠ 0 then
        some (Violation.danglingRef e.no ref_no)
      else none)

/-- Reference findings of one timeline (lines 299-309); the Python set
`event_numbers` is embedded as the list of numbers (only membership is
used). -/
def reference_errors_timeline (t : ActorStory) : List Violation :=
  let event_numbers := t.events.map (fun e => e.no)
  (t.events.map (event_ref_errors event_numbers)).flatten

/-- `FaultInjector.validate_scenario` (lines 276-311): all contiguity
findings over all timelines, then all reference findings over all
timelines. -/
def validate_scenario (s : Scenario) : List Violation :=
  (s.story.map (fun t => contiguityFrom 1 t.events)).flatten ++
    (s.story.map reference_errors_timeline).flatten

/-- Contiguous numbering from `k`: the successive events are numbered
`k, k + 1, ...`.  `ContigFrom 1 es` renders the spec's invariant "walking
events in sequence order, the n-th event (1-based) must have
`number == n`". -/
def ContigFrom : Int → List Event → Prop
  | _, [] => True
  | k, e :: es => e.no = k ∧ ContigFrom (k + 1) es

def decContigFrom : (es : List Event) → (k : Int) → Decidable (ContigFrom k es)
  | [], _ => Decidable.isTrue trivial
  | e :: es, k =>
    have d2 : Decidable (ContigFrom (k + 1) es) := decContigFrom es (k + 1)
    have d1 : Decidable (e.no = k) := inferInstance
    @instDecidableAnd _ _ d1 d2

instance (k : Int) (es : List Event) : Decidable (ContigFrom k es) :=
  decContigFrom es k

/-- Validity of the target stored in an `event_no` parameter, per the spec:
"unless it equals the sentinel `0`, some event in the same timeline must
carry that `number`"; non-integer values are not subject to the check. -/
def RefTargetOK (t : ActorStory) : JsonVal → Prop
  | JsonVal.vInt n => n = 0 ∨ ∃ e2 ∈ t.events, e2.no = n
  | JsonVal.vStr _ => True

instance (t : ActorStory) : (v : JsonVal) → Decidable (RefTargetOK t v)
  | JsonVal.vInt _ => inferInstanceAs (Decidable (_ ∨ _))
  | JsonVal.vStr _ => Decidable.isTrue trivial

/-- A parameter respects reference existence within timeline `t`. -/
def ParamRefOK (t : ActorStory) (p : Param) : Prop :=
  p.name = "event_no" → RefTargetOK t p.value

instance (t : ActorStory) (p : Param) : Decidable (ParamRefOK t p) :=
  inferInstanceAs (Decidable (_ → _))

/-- All `eventState` conditions of an (optional) trigger only reference
existing events of timeline `t` (or the sentinel `0`). -/
def TriggerRefsOK (t : ActorStory) : Option StartTrigger → Prop
  | none => True
  | some tr =>
    ∀ g ∈ tr.condition_groups, ∀ c ∈ g.conditions,
      c.type = "event_state" → ∀ p ∈ c.params, ParamRefOK t p

instance (t : ActorStory) : (o : Option StartTrigger) → Decidable (TriggerRefsOK t o)
  | none => Decidable.isTrue trivial
  | some tr => inferInstanceAs (Decidable (∀ g ∈ tr.condition_groups, _))

/-- Well-formedness of a scenario, rendered from the spec's §3/§4.3 words:
every timeline is numbered contiguously from 1, and every `event_no`
reference of an `eventState` condition resolves within its own timeline
(sentinel `0` exempt). -/
def SpecWellFormed (s : Scenario) : Prop :=
  (∀ t ∈ s.story, ContigFrom 1 t.events) ∧
    (∀ t ∈ s.story, ∀ e ∈ t.events, TriggerRefsOK t e.start_trigger)

instance (s : Scenario) : Decidable (SpecWellFormed s) :=
  inferInstanceAs (Decidable (_ ∧ _))

/-- The reference-rewrite step as worded by the spec and claim C2: an
`event_no` parameter whose stored integer is `≥` the threshold is
incremented by 1, every other parameter is left unchanged. -/
def spec_shift_param (threshold : Int) (p : Param) : Param :=
  if p.name = "event_no" then
    match p.value with
    | JsonVal.vInt n =>
      if threshold ≤ n then { p with value := JsonVal.vInt (n + 1) } else p
    | JsonVal.vStr _ => p
  else p

/-- The spec-worded rewrite applied through a trigger tree: every condition
group, every condition of kind `eventState`, every parameter. -/
def spec_shift_trigger (threshold : Int) (tr : StartTrigger) : StartTrigger :=
  { condition_groups := tr.condition_groups.map (fun g =>
      { conditions := g.conditions.map (fun c =>
          if c.type = "event_state" then
            { c with params := c.params.map (spec_shift_param threshold) }
          else c) }) }

/-- Projection: the `value` of the `pIdx`-th parameter of the `cIdx`-th
condition of the `gIdx`-th condition group of the start trigger of the
`eIdx`-th event of the `tIdx`-th timeline. -/
def param_value_at (s : Scenario) (tIdx eIdx gIdx cIdx pIdx : Nat) : Option JsonVal :=
  (s.story[tIdx]?).bind fun t =>
    (t.events[eIdx]?).bind fun e =>
      e.start_trigger.bind fun tr =>
        (tr.condition_groups[gIdx]?).bind fun g =>
          (g.conditions[cIdx]?).bind fun c =>
            (c.params[pIdx]?).map (fun p => p.value)

/-- Projection: the `delay` of the addressed condition. -/
def delay_at (s : Scenario) (tIdx eIdx gIdx cIdx : Nat) : Option Int :=
  (s.story[tIdx]?).bind fun t =>
    (t.events[eIdx]?).bind fun e =>
      e.start_trigger.bind fun tr =>
        (tr.condition_groups[gIdx]?).bind fun g =>
          (g.conditions[cIdx]?).map (fun c => c.delay)

/-- Did the call succeed? -/
def isSuccess : Except InjectError Scenario → Bool
  | Except.ok _ => true
  | Except.error _ => false

def exceptDecEq {ε : Type u1} {α : Type u2} [DecidableEq ε] [DecidableEq α] :
    (x y : Except ε α) → Decidable (x = y)
  | Except.ok a, Except.ok b =>
    match decEq a b with
    | Decidable.isTrue h => Decidable.isTrue (by rw [h])
    | Decidable.isFalse h => Decidable.isFalse (by intro hx; cases hx; exact h rfl)
  | Except.ok _, Except.error _ => Decidable.isFalse (by intro hx; cases hx)
  | Except.error _, Except.ok _ => Decidable.isFalse (by intro hx; cases hx)
  | Except.error e, Except.error f =>
    match decEq e f with
    | Decidable.isTrue h => Decidable.isTrue (by rw [h])
    | Decidable.isFalse h => Decidable.isFalse (by intro hx; cases hx; exact h rfl)

instance {ε : Type u1} {α : Type u2} [DecidableEq ε] [DecidableEq α] :
    DecidableEq (Except ε α) :=
  exceptDecEq

/-- The event list produced by the successful path of `inject_fault_event`
when the anchor sits at index `j`: splice at `j + 1`, renumber the tail from
`a + 2`, rewrite references with threshold `a + 1`, recompute the
procedural order. -/
def injected_events (ti : TriggerInfo) (a d : Int) (j : Nat) (es : List Event) : List Event :=
  update_test_procedure_order (update_event_references
    (renumber_events (list_insert (j + 1) (create_fault_event ti (a + 1) a d) es)
      (j + 2) (a + 2)) (a + 1))

/-- A plain timeline event used by the concrete scenarios below. -/
def egoEv (n : Int) (tr : Option StartTrigger) (atype : String) : Event :=
  { no := n, times := 1, action := { type := atype, params := [] }
  , start_trigger := tr, criteria := [], remarks := [], test_procedure_order := n }

/-- An `event_state` trigger on event `n` (completion, no delay). -/
def trigOn (n : Int) : StartTrigger :=
  { condition_groups := [
      { conditions := [
          { type := "event_state"
          , params := [
              { rule := some "equalTo", name := "event_no"
              , value := JsonVal.vInt n, unit := "" },
              { rule := some "equalTo", name := "state"
              , value := JsonVal.vStr "completeState", unit := "" } ]
          , delay := 0 } ] } ] }

/-- The three-event base timeline of the spec's §8 concrete scenario. -/
def baseEgoStory : ActorStory :=
  { actor_name := "ego", events := [
      egoEv 1 none "engine_startup_operation",
      egoEv 2 (some (trigOn 1)) "shift",
      egoEv 3 (some (trigOn 2)) "appcssw" ] }

def baseScenario : Scenario :=
  { scenario_summary := "base", variation := "v1", story := [baseEgoStory] }

def canTrigger : TriggerInfo :=
  { signal_name := some "CAN_BRAKE_ERROR", value := some (JsonVal.vInt 1)
  , action_type := some "can_communication_error", target := none }

/-- A second actor whose first event references event 2 of its own timeline. -/
def otherStory : ActorStory :=
  { actor_name := "other", events := [
      egoEv 1 (some (trigOn 2)) "shift",
      egoEv 2 none "appcssw" ] }

/-- Two timelines: the mutated `"ego"` one and an untouched `"other"` one. -/
def twoActorScenario : Scenario :=
  { scenario_summary := "base", variation := "v1"
  , story := [
      { actor_name := "ego", events := [
          egoEv 1 none "engine_startup_operation",
          egoEv 2 none "shift" ] },
      otherStory ] }

/-- A single-timeline scenario whose `"ego"` timeline has no events. -/
def egoEmptyScenario : Scenario :=
  { scenario_summary := "s", variation := "v"
  , story := [{ actor_name := "ego", events := [] }] }

/-- A single-timeline scenario with one `"ego"` event numbered 1. -/
def egoOnlyScenario : Scenario :=
  { scenario_summary := "s", variation := "v"
  , story := [{ actor_name := "ego", events := [egoEv 1 none "engine_startup_operation"] }] }

/-- A single-timeline scenario whose only actor is `"alice"`. -/
def aliceScenario : Scenario :=
  { scenario_summary := "s", variation := "v"
  , story := [{ actor_name := "alice", events := [egoEv 1 none "shift"] }] }

/-- A steering trigger description with an explicit value. -/
def steerTrigger : TriggerInfo :=
  { signal_name := some "STEER", value := some (JsonVal.vInt 30)
  , action_type := some "steering", target := none }

/-- An `event_no` parameter holding a numeric string instead of an integer. -/
def strParam : Param :=
  { rule := none, name := "event_no", value := JsonVal.vStr "2", unit := "" }

theorem list_insert_length (i : Nat) (a : α) (l : List α) :
    (list_insert i a l).length = l.length + 1 := by
  induction l generalizing i with
  | nil => cases i <;> rfl
  | cons x xs ih =>
    cases i with
    | zero => rfl
    | succ n => simp [list_insert, ih]

theorem list_insert_eq_take_drop (i : Nat) (a : α) (l : List α) (h : i ≤ l.length) :
    list_insert i a l = l.take i ++ a :: l.drop i := by
  induction l generalizing i with
  | nil =>
    have hi : i = 0 := Nat.le_zero.mp h
    subst hi; rfl
  | cons x xs ih =>
    cases i with
    | zero => rfl
    | succ n =>
      simp only [list_insert, List.take_succ_cons, List.drop_succ_cons, List.cons_append]
      rw [ih n (Nat.le_of_succ_le_succ h)]

theorem list_insert_getElem_self (i : Nat) (a : α) (l : List α) (h : i ≤ l.length) :
    (list_insert i a l)[i]? = some a := by
  induction l generalizing i with
  | nil =>
    have hi : i = 0 := Nat.le_zero.mp h
    subst hi; rfl
  | cons x xs ih =>
    cases i with
    | zero => rfl
    | succ n =>
      simpa [list_insert] using ih n (Nat.le_of_succ_le_succ h)

theorem list_insert_mem {i : Nat} {a x : α} {l : List α} (h : x ∈ list_insert i a l) :
    x = a ∨ x ∈ l := by
  induction l generalizing i with
  | nil =>
    cases i <;> simp only [list_insert, List.mem_singleton] at h <;> exact Or.inl h
  | cons y ys ih =>
    cases i with
    | zero =>
      simp only [list_insert, List.mem_cons] at h
      rcases h with h | h | h
      · exact Or.inl h
      · exact Or.inr (by simp [h])
      · exact Or.inr (by simp [h])
    | succ n =>
      simp only [list_insert, List.mem_cons] at h
      rcases h with h | h
      · exact Or.inr (by simp [h])
      · rcases ih h with h1 | h1
        · exact Or.inl h1
        · exact Or.inr (by simp [h1])

theorem renumber_from_length (k : Int) (l : List Event) :
    (renumber_from k l).length = l.length := by
  induction l generalizing k with
  | nil => rfl
  | cons e es ih => simp [renumber_from, ih]

theorem renumber_from_map_trig (k : Int) (l : List Event) :
    (renumber_from k l).map (fun e => e.start_trigger) = l.map (fun e => e.start_trigger) := by
  induction l generalizing k with
  | nil => rfl
  | cons e es ih => simp [renumber_from, ih]

theorem renumber_events_length (l : List Event) (s : Nat) (n : Int) :
    (renumber_events l s n).length = l.length := by
  simp only [renumber_events, List.length_append, renumber_from_length,
    List.length_take, List.length_drop]
  omega

theorem renumber_events_map_trig (l : List Event) (s : Nat) (n : Int) :
    (renumber_events l s n).map (fun e => e.start_trigger) =
      l.map (fun e => e.start_trigger) := by
  simp only [renumber_events, List.map_append, renumber_from_map_trig]
  rw [← List.map_append, List.take_append_drop]

theorem renumber_decomp (A : List Event) (b : Event) (B : List Event) (k : Int) :
    renumber_events (A ++ b :: B) (A.length + 1) k = A ++ b :: renumber_from k B := by
  induction A with
  | nil => simp [renumber_events]
  | cons x xs ih =>
    simp only [List.cons_append, List.length_cons]
    show renumber_events (x :: (xs ++ b :: B)) (xs.length + 1 + 1) k = _
    simp only [renumber_events, List.take_succ_cons, List.drop_succ_cons,
      List.cons_append] at ih ⊢
    exact congrArg (x :: ·) ih

theorem set_tpo_from_length (k : Int) (l : List Event) :
    (set_tpo_from k l).length = l.length := by
  induction l generalizing k with
  | nil => rfl
  | cons e es ih => simp [set_tpo_from, ih]

theorem set_tpo_from_map_no (k : Int) (l : List Event) :
    (set_tpo_from k l).map (fun e => e.no) = l.map (fun e => e.no) := by
  induction l generalizing k with
  | nil => rfl
  | cons e es ih => simp [set_tpo_from, ih]

theorem set_tpo_from_map_trig (k : Int) (l : List Event) :
    (set_tpo_from k l).map (fun e => e.start_trigger) = l.map (fun e => e.start_trigger) := by
  induction l generalizing k with
  | nil => rfl
  | cons e es ih => simp [set_tpo_from, ih]

theorem update_event_in_refs_no (i : Int) (e : Event) :
    (update_event_in_refs i e).no = e.no := by
  cases h : e.start_trigger <;> simp [update_event_in_refs, h]

theorem update_event_in_refs_trig (i : Int) (e : Event) :
    (update_event_in_refs i e).start_trigger =
      e.start_trigger.map (update_trigger_references i) := by
  cases h : e.start_trigger <;> simp [update_event_in_refs, h]

theorem update_event_references_length (l : List Event) (i : Int) :
    (update_event_references l i).length = l.length := by
  simp [update_event_references]

theorem update_event_references_map_no (l : List Event) (i : Int) :
    (update_event_references l i).map (fun e => e.no) = l.map (fun e => e.no) := by
  simp only [update_event_references, List.map_map]
  exact List.map_congr_left (fun e _ => update_event_in_refs_no i e)

theorem update_event_references_map_trig (l : List Event) (i : Int) :
    (update_event_references l i).map (fun e => e.start_trigger) =
      l.map (fun e => e.start_trigger.map (update_trigger_references i)) := by
  simp only [update_event_references, List.map_map]
  exact List.map_congr_left (fun e _ => update_event_in_refs_trig i e)

theorem contigFrom_cons {k : Int} {e : Event} {es : List Event} :
    ContigFrom k (e :: es) ↔ e.no = k ∧ ContigFrom (k + 1) es :=
  Iff.rfl

theorem contig_append {A B : List Event} {k : Int} (hA : ContigFrom k A)
    (hB : ContigFrom (k + A.length) B) : ContigFrom k (A ++ B) := by
  induction A generalizing k with
  | nil => simpa using hB
  | cons e es ih =>
    refine ⟨hA.1, ih hA.2 ?_⟩
    have : k + (e :: es).length = (k + 1) + es.length := by
      simp; omega
    exact this ▸ hB

theorem contig_take {k : Int} {es : List Event} (m : Nat) (h : ContigFrom k es) :
    ContigFrom k (es.take m) := by
  induction es generalizing k m with
  | nil => simp [ContigFrom]
  | cons e es ih =>
    cases m with
    | zero => simp [ContigFrom]
    | succ n => exact ⟨h.1, ih n h.2⟩

theorem contig_renumber_from (k : Int) (l : List Event) :
    ContigFrom k (renumber_from k l) := by
  induction l generalizing k with
  | nil => trivial
  | cons e es ih => exact ⟨rfl, ih (k + 1)⟩

theorem contig_of_map_no_eq {es es' : List Event} {k : Int}
    (h : es.map (fun e => e.no) = es'.map (fun e => e.no)) :
    ContigFrom k es ↔ ContigFrom k es' := by
  induction es generalizing es' k with
  | nil =>
    cases es' with
    | nil => exact Iff.rfl
    | cons e' es' => simp at h
  | cons e es ih =>
    cases es' with
    | nil => simp at h
    | cons e' es' =>
      simp only [List.map_cons, List.cons.injEq] at h
      rw [contigFrom_cons, contigFrom_cons, h.1, ih h.2]

theorem contig_getElem? {es : List Event} {k : Int} {i : Nat} {e : Event}
    (hc : ContigFrom k es) (h : es[i]? = some e) : e.no = k + i := by
  induction es generalizing k i with
  | nil => simp at h
  | cons x xs ih =>
    cases i with
    | zero =>
      simp only [List.getElem?_cons_zero, Option.some.injEq] at h
      subst h; simpa using hc.1
    | succ n =>
      simp only [List.getElem?_cons_succ] at h
      have := ih hc.2 h
      push_cast at this ⊢
      omega

theorem contig_mem_no {es : List Event} {k m : Int} (hc : ContigFrom k es)
    (h1 : k ≤ m) (h2 : m < k + (es.length : Int)) : m ∈ es.map (fun e => e.no) := by
  induction es generalizing k with
  | nil => simp at h2; omega
  | cons e es ih =>
    rcases eq_or_lt_of_le h1 with h | h
    · simp [← h, hc.1]
    · have : m ∈ es.map (fun e => e.no) := by
        refine ih hc.2 (by omega) ?_
        simp at h2 ⊢
        omega
      simp [this]

theorem contig_no_bounds {es : List Event} {k m : Int} (hc : ContigFrom k es)
    (h : m ∈ es.map (fun e => e.no)) : k ≤ m ∧ m < k + (es.length : Int) := by
  induction es generalizing k with
  | nil => simp at h
  | cons e es ih =>
    simp only [List.map_cons, List.mem_cons] at h
    rcases h with h | h
    · have := hc.1
      simp only [List.length_cons]
      push_cast
      omega
    · have := ih hc.2 h
      simp only [List.length_cons]
      push_cast at this ⊢
      omega

theorem find_pos_not_found {es : List Event} {a : Int} (h : ∀ e ∈ es, e.no ≠ a) :
    ∀ i : Int, find_pos_from i a es = -1 := by
  induction es with
  | nil => intro i; rfl
  | cons e es ih =>
    intro i
    have hne : e.no ≠ a := h e (by simp)
    simp only [find_pos_from, if_neg hne]
    exact ih (fun e' he' => h e' (by simp [he'])) (i + 1)

theorem find_pos_of_contig {es : List Event} {k : Int} (hc : ContigFrom k es)
    (j : Nat) (hj : j < es.length) :
    ∀ i : Int, find_pos_from i (k + j) es = i + j + 1 := by
  induction es generalizing k j with
  | nil => simp at hj
  | cons e es ih =>
    intro i
    cases j with
    | zero =>
      have : e.no = k + (0 : Nat) := by simpa using hc.1
      simp [find_pos_from, this]
    | succ n =>
      have hne : e.no ≠ k + ((n + 1 : Nat) : Int) := by
        rw [hc.1]; push_cast; omega
      simp only [find_pos_from, if_neg hne]
      have := ih hc.2 n (by simpa using Nat.lt_of_succ_lt_succ hj) (i + 1)
      rw [show k + ((n + 1 : Nat) : Int) = (k + 1) + (n : Int) by push_cast; omega, this]
      push_cast
      omega

theorem find_pos_range (es : List Event) (a : Int) :
    ∀ i : Int, find_pos_from i a es = -1 ∨
      (i + 1 ≤ find_pos_from i a es ∧ find_pos_from i a es ≤ i + es.length) := by
  induction es with
  | nil => intro i; exact Or.inl rfl
  | cons e es ih =>
    intro i
    by_cases h : e.no = a
    · right
      simp only [find_pos_from, if_pos h, List.length_cons]
      push_cast
      omega
    · simp only [find_pos_from, if_neg h, List.length_cons]
      rcases ih (i + 1) with h1 | h1
      · exact Or.inl h1
      · right; push_cast at h1 ⊢; omega

theorem find_insert_inv {es : List Event} {a : Int} {j : Nat}
    (h : find_insert_position es a = (j : Int) + 1) : j < es.length := by
  rcases find_pos_range es a 0 with h1 | h1 <;> rw [find_insert_position] at h <;>
    rw [h] at h1 <;> omega

theorem extract_param_fn_eq_some {p : Param} {r : Int} :
    (if p.name = "event_no" then
        match p.value with
        | JsonVal.vInt n => some n
        | JsonVal.vStr _ => none
      else none) = some r ↔ p.name = "event_no" ∧ p.value = JsonVal.vInt r := by
  by_cases h : p.name = "event_no"
  · simp only [if_pos h, h, true_and]
    cases hv : p.value with
    | vInt n => simp
    | vStr s => simp
  · simp [h]

theorem mem_extract_params {ps : List Param} {r : Int} :
    r ∈ extract_params_refs ps ↔
      ∃ p ∈ ps, p.name = "event_no" ∧ p.value = JsonVal.vInt r := by
  simp only [extract_params_refs, List.mem_filterMap]
  constructor
  · rintro ⟨p, hp, hf⟩
    exact ⟨p, hp, extract_param_fn_eq_some.mp hf⟩
  · rintro ⟨p, hp, h1, h2⟩
    exact ⟨p, hp, extract_param_fn_eq_some.mpr ⟨h1, h2⟩⟩

theorem mem_extract_condition {c : Condition} {r : Int} :
    r ∈ extract_condition_refs c ↔
      c.type = "event_state" ∧ ∃ p ∈ c.params, p.name = "event_no" ∧ p.value = JsonVal.vInt r := by
  by_cases h : c.type = "event_state" <;>
    simp [extract_condition_refs, h, mem_extract_params]

theorem mem_extract_group {g : ConditionGroup} {r : Int} :
    r ∈ extract_group_refs g ↔ ∃ c ∈ g.conditions, r ∈ extract_condition_refs c := by
  simp [extract_group_refs, List.mem_flatten]

theorem mem_extract_trigger {tr : StartTrigger} {r : Int} :
    r ∈ extract_referenced_events tr ↔
      ∃ g ∈ tr.condition_groups, ∃ c ∈ g.conditions,
        c.type = "event_state" ∧ ∃ p ∈ c.params, p.name = "event_no" ∧ p.value = JsonVal.vInt r := by
  simp [extract_referenced_events, List.mem_flatten, mem_extract_group, mem_extract_condition]

theorem extract_params_update (i : Int) (ps : List Param) :
    extract_params_refs (ps.map (update_param_ref i)) =
      (extract_params_refs ps).map (fun r => if i ≤ r then r + 1 else r) := by
  induction ps with
  | nil => rfl
  | cons p ps ih =>
    by_cases hn : p.name = "event_no"
    · cases hv : p.value with
      | vInt n =>
        by_cases hin : i ≤ n
        · simp [extract_params_refs, update_param_ref, hn, hv, hin,
            List.filterMap_cons] at ih ⊢
          exact ih
        · simp [extract_params_refs, update_param_ref, hn, hv, hin,
            List.filterMap_cons] at ih ⊢
          exact ih
      | vStr s =>
        simp [extract_params_refs, update_param_ref, hn, hv, List.filterMap_cons] at ih ⊢
        exact ih
    · simp [extract_params_refs, update_param_ref, hn, List.filterMap_cons] at ih ⊢
      exact ih

theorem extract_condition_update (i : Int) (c : Condition) :
    extract_condition_refs (update_condition_refs i c) =
      (extract_condition_refs c).map (fun r => if i ≤ r then r + 1 else r) := by
  by_cases h : c.type = "event_state" <;>
    simp [extract_condition_refs, update_condition_refs, h, extract_params_update]

theorem extract_group_update (i : Int) (g : ConditionGroup) :
    extract_group_refs { g with conditions := g.conditions.map (update_condition_refs i) } =
      (extract_group_refs g).map (fun r => if i ≤ r then r + 1 else r) := by
  simp only [extract_group_refs, List.map_map, List.map_flatten]
  congr 1
  exact List.map_congr_left (fun c _ => extract_condition_update i c)

theorem extract_trigger_update (i : Int) (tr : StartTrigger) :
    extract_referenced_events (update_trigger_references i tr) =
      (extract_referenced_events tr).map (fun r => if i ≤ r then r + 1 else r) := by
  simp only [extract_referenced_events, update_trigger_references, List.map_map,
    List.map_flatten]
  congr 1
  exact List.map_congr_left (fun g _ => extract_group_update i g)

theorem update_trigger_eq_spec_shift (i : Int) (tr : StartTrigger) :
    update_trigger_references i tr = spec_shift_trigger i tr := rfl

theorem contiguityFrom_eq_nil {k : Int} {es : List Event} :
    contiguityFrom k es = [] ↔ ContigFrom k es := by
  induction es generalizing k with
  | nil => simp [contiguityFrom, ContigFrom]
  | cons e es ih =>
    by_cases h : e.no = k <;> simp [contiguityFrom, h, contigFrom_cons, ih]

theorem event_ref_errors_nil {nums : List Int} {e : Event} :
    event_ref_errors nums e = [] ↔
      ∀ tr, e.start_trigger = some tr →
        ∀ r ∈ extract_referenced_events tr, r ∈ nums ∨ r = 0 := by
  cases htr : e.start_trigger with
  | none => simp [event_ref_errors, htr]
  | some tr =>
    simp only [event_ref_errors, htr, List.filterMap_eq_nil_iff, Option.some.injEq]
    constructor
    · rintro h tr' rfl r hr
      have := h r hr
      by_cases hc : r ∉ nums ∧ r ≠ 0
      · rw [if_pos hc] at this; exact absurd this (by simp)
      · push_neg at hc
        by_cases hm : r ∈ nums
        · exact Or.inl hm
        · exact Or.inr (hc hm)
    · intro h r hr
      rw [if_neg]
      push_neg
      intro hm
      rcases h tr rfl r hr with h1 | h1
      · exact absurd h1 hm
      · exact h1

theorem reference_errors_nil {t : ActorStory} :
    reference_errors_timeline t = [] ↔
      ∀ e ∈ t.events, ∀ tr, e.start_trigger = some tr →
        ∀ r ∈ extract_referenced_events tr,
          r ∈ t.events.map (fun e => e.no) ∨ r = 0 := by
  simp only [reference_errors_timeline, List.flatten_eq_nil_iff, List.forall_mem_map]
  constructor
  · intro h e he tr htr r hr
    exact event_ref_errors_nil.mp (h e he) tr htr r hr
  · intro h e he
    exact event_ref_errors_nil.mpr (fun tr htr r hr => h e he tr htr r hr)

theorem trigger_refs_ok_iff {t : ActorStory} {o : Option StartTrigger} :
    TriggerRefsOK t o ↔
      ∀ tr, o = some tr → ∀ r ∈ extract_referenced_events tr,
        r = 0 ∨ ∃ e2 ∈ t.events, e2.no = r := by
  cases o with
  | none => simp [TriggerRefsOK]
  | some tr =>
    simp only [TriggerRefsOK, Option.some.injEq]
    constructor
    · rintro h tr' rfl r hr
      rcases mem_extract_trigger.mp hr with ⟨g, hg, c, hc, hct, p, hp, hpn, hpv⟩
      have := h g hg c hc hct p hp hpn
      rw [hpv] at this
      exact this
    · intro h g hg c hc hct p hp hpn
      cases hv : p.value with
      | vInt n =>
        have hr : n ∈ extract_referenced_events tr :=
          mem_extract_trigger.mpr ⟨g, hg, c, hc, hct, p, hp, hpn, hv⟩
        simpa [RefTargetOK] using h tr rfl n hr
      | vStr s => simp [RefTargetOK]

theorem validate_nil_iff (s : Scenario) :
    validate_scenario s = [] ↔ SpecWellFormed s := by
  rw [validate_scenario, List.append_eq_nil]
  simp only [List.flatten_eq_nil_iff, List.forall_mem_map]
  constructor
  · rintro ⟨h1, h2⟩
    refine ⟨fun t ht => contiguityFrom_eq_nil.mp (h1 t ht), fun t ht e he => ?_⟩
    rw [trigger_refs_ok_iff]
    intro tr htr r hr
    rcases reference_errors_nil.mp (h2 t ht) e he tr htr r hr with h | h
    · rcases List.mem_map.mp h with ⟨e2, he2, hno⟩
      exact Or.inr ⟨e2, he2, hno⟩
    · exact Or.inl h
  · rintro ⟨h1, h2⟩
    refine ⟨fun t ht => contiguityFrom_eq_nil.mpr (h1 t ht), fun t ht => ?_⟩
    rw [reference_errors_nil]
    intro e he tr htr r hr
    rcases (trigger_refs_ok_iff.mp (h2 t ht e he)) tr htr r hr with h | h
    · exact Or.inr h
    · rcases h with ⟨e2, he2, hno⟩
      exact Or.inl (List.mem_map.mpr ⟨e2, he2, hno⟩)

theorem update_ego_none {f : List Event → Except InjectError (List Event)}
    {ts : List ActorStory} (h : ∀ u ∈ ts, u.actor_name ≠ "ego") :
    update_ego_story f ts = Except.error InjectError.actorNotFound := by
  induction ts with
  | nil => rfl
  | cons t ts ih =>
    have hne : t.actor_name ≠ "ego" := h t (by simp)
    rw [update_ego_story, if_neg hne, ih (fun u hu => h u (by simp [hu]))]
    rfl

theorem update_ego_append {f : List Event → Except InjectError (List Event)}
    (pre : List ActorStory) (t : ActorStory) (post : List ActorStory)
    (hpre : ∀ u ∈ pre, u.actor_name ≠ "ego") (ht : t.actor_name = "ego") :
    update_ego_story f (pre ++ t :: post) =
      (f t.events).map (fun es => pre ++ { t with events := es } :: post) := by
  induction pre with
  | nil =>
    simp only [List.nil_append]
    rw [update_ego_story, if_pos ht]
  | cons x xs ih =>
    have hne : x.actor_name ≠ "ego" := hpre x (by simp)
    simp only [List.cons_append]
    rw [update_ego_story, if_neg hne, ih (fun u hu => hpre u (by simp [hu]))]
    cases f t.events <;> rfl

theorem inject_into_events_ok (ti : TriggerInfo) (a d : Int) (events : List Event) (j : Nat)
    (hfind : find_insert_position events a = (j : Int) + 1) :
    inject_into_events ti a d events = Except.ok
      (update_test_procedure_order (update_event_references
        (renumber_events (list_insert (j + 1) (create_fault_event ti (a + 1) a d) events)
          (j + 2) (a + 2)) (a + 1))) := by
  have hj : j < events.length := find_insert_inv hfind
  have hne : events ≠ [] := by
    intro h
    rw [h] at hj
    simp at hj
  have hm1 : ((j : Int) + 1) ≠ -1 := by omega
  have htn : ((j : Int) + 1).toNat = j + 1 := by omega
  simp only [inject_into_events, if_neg hne, hfind, if_neg hm1, htn]

theorem inject_ok_decomp (s : Scenario) (ti : TriggerInfo) (a d : Int)
    (pre : List ActorStory) (t : ActorStory) (post : List ActorStory) (j : Nat)
    (hs : s.story = pre ++ t :: post)
    (hpre : ∀ u ∈ pre, u.actor_name ≠ "ego")
    (ht : t.actor_name = "ego")
    (hfind : find_insert_position t.events a = (j : Int) + 1) :
    inject_fault_event s ti a d = Except.ok { s with story := pre ++
      { t with events := update_test_procedure_order (update_event_references
          (renumber_events (list_insert (j + 1) (create_fault_event ti (a + 1) a d) t.events)
            (j + 2) (a + 2)) (a + 1)) } :: post } := by
  have hstory : ¬ (s.story = []) := by
    rw [hs]
    simp
  simp only [inject_fault_event, if_neg hstory]
  rw [hs, update_ego_append pre t post hpre ht,
    inject_into_events_ok ti a d t.events j hfind]
  rfl

theorem forall_of_map_eq {α : Type u1} {β : Type u2} {γ : Type u3}
    {l : List α} {l' : List β} {f : α → γ} {g : β → γ}
    {P : γ → Prop} (h : l.map f = l'.map g) (hP : ∀ x ∈ l', P (g x)) :
    ∀ y ∈ l, P (f y) := by
  intro y hy
  have hmem : f y ∈ l.map f := List.mem_map.mpr ⟨y, hy, rfl⟩
  rw [h] at hmem
  rcases List.mem_map.mp hmem with ⟨x, hx, hxy⟩
  exact hxy ▸ hP x hx

theorem extract_fault_trigger (a d : Int) :
    extract_referenced_events (fault_trigger a d) = [a] := by
  simp [extract_referenced_events, fault_trigger, extract_group_refs,
    extract_condition_refs, extract_params_refs]

theorem inject_ok_story (s : Scenario) (ti : TriggerInfo) (a d : Int)
    (pre : List ActorStory) (t : ActorStory) (post : List ActorStory) (j : Nat)
    (hs : s.story = pre ++ t :: post)
    (hpre : ∀ u ∈ pre, u.actor_name ≠ "ego")
    (ht : t.actor_name = "ego")
    (hfind : find_insert_position t.events a = (j : Int) + 1) :
    inject_fault_event s ti a d = Except.ok
      { s with story := pre ++ { t with events := injected_events ti a d j t.events } :: post } :=
  inject_ok_decomp s ti a d pre t post j hs hpre ht hfind

theorem injected_events_length (ti : TriggerInfo) (a d : Int) (j : Nat) (es : List Event) :
    (injected_events ti a d j es).length = es.length + 1 := by
  rw [injected_events, update_test_procedure_order, set_tpo_from_length,
    update_event_references_length, renumber_events_length, list_insert_length]

theorem injected_events_contig (ti : TriggerInfo) (d : Int) {es : List Event} {j : Nat} {a : Int}
    (hc : ContigFrom 1 es) (hj : j < es.length) (ha : a = (j : Int) + 1) :
    ContigFrom 1 (injected_events ti a d j es) := by
  have hmap : (injected_events ti a d j es).map (fun e => e.no) =
      (renumber_events (list_insert (j + 1) (create_fault_event ti (a + 1) a d) es)
        (j + 2) (a + 2)).map (fun e => e.no) := by
    rw [injected_events, update_test_procedure_order, set_tpo_from_map_no,
      update_event_references_map_no]
  rw [contig_of_map_no_eq hmap]
  have hins : list_insert (j + 1) (create_fault_event ti (a + 1) a d) es =
      es.take (j + 1) ++ create_fault_event ti (a + 1) a d :: es.drop (j + 1) :=
    list_insert_eq_take_drop _ _ _ (by omega)
  have hlenA : (es.take (j + 1)).length = j + 1 := by
    rw [List.length_take]
    omega
  rw [hins, show j + 2 = (es.take (j + 1)).length + 1 by omega, renumber_decomp]
  apply contig_append (contig_take _ hc)
  rw [contigFrom_cons]
  constructor
  · show (create_fault_event ti (a + 1) a d).no = 1 + ((es.take (j + 1)).length : Int)
    rw [hlenA]
    show a + 1 = 1 + ((j + 1 : Nat) : Int)
    push_cast
    omega
  · have heq : (1 + ((es.take (j + 1)).length : Int)) + 1 = a + 2 := by
      rw [hlenA]
      push_cast
      omega
    rw [heq]
    exact contig_renumber_from _ _

theorem injected_events_trig_map (ti : TriggerInfo) (a d : Int) (j : Nat) (es : List Event) :
    (injected_events ti a d j es).map (fun e => e.start_trigger) =
      (list_insert (j + 1) (create_fault_event ti (a + 1) a d) es).map
        (fun e => e.start_trigger.map (update_trigger_references (a + 1))) := by
  rw [injected_events, update_test_procedure_order, set_tpo_from_map_trig,
    update_event_references_map_trig]
  have h2 : ∀ (l : List Event),
      l.map (fun e => e.start_trigger.map (update_trigger_references (a + 1))) =
        (l.map (fun e => e.start_trigger)).map
          (Option.map (update_trigger_references (a + 1))) := by
    intro l
    rw [List.map_map]
    rfl
  rw [h2, h2, renumber_events_map_trig]

theorem injected_events_refs (ti : TriggerInfo) (d : Int) {t : ActorStory} {a : Int} {j : Nat}
    (hc : ContigFrom 1 t.events) (hj : j < t.events.length) (ha : a = (j : Int) + 1)
    (hwfrefs : ∀ e ∈ t.events, TriggerRefsOK t e.start_trigger) :
    ∀ e ∈ injected_events ti a d j t.events, ∀ tr, e.start_trigger = some tr →
      ∀ r ∈ extract_referenced_events tr,
        r ∈ (injected_events ti a d j t.events).map (fun e => e.no) ∨ r = 0 := by
  have hnums : ∀ m : Int, 1 ≤ m → m < (t.events.length : Int) + 2 →
      m ∈ (injected_events ti a d j t.events).map (fun e => e.no) := by
    intro m h1 h2
    apply contig_mem_no (injected_events_contig ti d hc hj ha) h1
    rw [injected_events_length]
    push_cast
    omega
  have hbounds : ∀ r : Int, r ∈ t.events.map (fun e => e.no) →
      1 ≤ r ∧ r < 1 + (t.events.length : Int) := fun r hr => contig_no_bounds hc hr
  refine forall_of_map_eq
    (P := fun o => ∀ tr, o = some tr → ∀ r ∈ extract_referenced_events tr,
      r ∈ (injected_events ti a d j t.events).map (fun e => e.no) ∨ r = 0)
    (injected_events_trig_map ti a d j t.events) ?_
  intro e1 he1 tr htr r hr
  rcases Option.map_eq_some'.mp htr with ⟨tr1, htr1, htr2⟩
  subst htr2
  rw [extract_trigger_update] at hr
  rcases List.mem_map.mp hr with ⟨r1, hr1, hshift⟩
  subst hshift
  rcases list_insert_mem he1 with hfault | hmem
  · subst hfault
    have htr1' : tr1 = fault_trigger a d := by
      simp only [create_fault_event, Option.some.injEq] at htr1
      exact htr1.symm
    subst htr1'
    rw [extract_fault_trigger] at hr1
    simp only [List.mem_singleton] at hr1
    subst hr1
    rw [if_neg (by omega : ¬ (r1 + 1 ≤ r1))]
    exact Or.inl (hnums r1 (by omega) (by omega))
  · have h1 := (trigger_refs_ok_iff.mp (hwfrefs e1 hmem)) tr1 htr1 r1 hr1
    rcases h1 with h0 | ⟨e2, he2, hno⟩
    · subst h0
      rw [if_neg (by omega : ¬ (a + 1 ≤ (0 : Int)))]
      exact Or.inr rfl
    · have hrmem : r1 ∈ t.events.map (fun e => e.no) := List.mem_map.mpr ⟨e2, he2, hno⟩
      have hb := hbounds r1 hrmem
      by_cases hcase : a + 1 ≤ r1
      · rw [if_pos hcase]
        exact Or.inl (hnums (r1 + 1) (by omega) (by omega))
      · rw [if_neg hcase]
        exact Or.inl (hnums r1 (by omega) (by omega))

/-- Claim C1: For every well-formed input scenario (contiguous event numbers per
timeline, no dangling references) and every anchor event number present in
the target timeline (the first `"ego"` entry of the story), the validator
run on the scenario returned by `inject_fault_event` reports no contiguity
violations and no reference-existence violations: the returned violation
list is empty. -/
theorem claim_C1_validate_after_inject (s : Scenario) (ti : TriggerInfo) (a d : Int)
    (pre : List ActorStory) (t : ActorStory) (post : List ActorStory)
    (hs : s.story = pre ++ t :: post)
    (hpre : ∀ u ∈ pre, u.actor_name ≠ "ego")
    (ht : t.actor_name = "ego")
    (hwf : SpecWellFormed s)
    (ha : a ∈ t.events.map (fun e => e.no)) :
    ∃ s2, inject_fault_event s ti a d = Except.ok s2 ∧ validate_scenario s2 = [] := by
  have htmem : t ∈ s.story := by
    rw [hs]
    simp
  have hc : ContigFrom 1 t.events := hwf.1 t htmem
  have hb := contig_no_bounds hc ha
  obtain ⟨j, hj, haj⟩ : ∃ j : Nat, j < t.events.length ∧ a = (j : Int) + 1 := by
    refine ⟨(a - 1).toNat, ?_, ?_⟩ <;> omega
  have hfind : find_insert_position t.events a = (j : Int) + 1 := by
    have hfp := find_pos_of_contig hc j hj 0
    rw [find_insert_position, show a = 1 + (j : Int) from by omega, hfp]
    omega
  refine ⟨_, inject_ok_story s ti a d pre t post j hs hpre ht hfind, ?_⟩
  rw [validate_nil_iff]
  refine ⟨?_, ?_⟩
  · intro u hu
    rcases List.mem_append.mp hu with hu | hu
    · exact hwf.1 u (by rw [hs]; exact List.mem_append.mpr (Or.inl hu))
    · rcases List.mem_cons.mp hu with rfl | hu
      · exact injected_events_contig ti d hc hj haj
      · exact hwf.1 u (by rw [hs]; simp [hu])
  · intro u hu e he
    rcases List.mem_append.mp hu with hu | hu
    · exact hwf.2 u (by rw [hs]; exact List.mem_append.mpr (Or.inl hu)) e he
    · rcases List.mem_cons.mp hu with rfl | hu
      · rw [trigger_refs_ok_iff]
        intro tr htr r hr
        have hres := injected_events_refs ti d hc hj haj
          (fun e1 he1 => hwf.2 t htmem e1 he1) e he tr htr r hr
        rcases hres with h | h
        · rcases List.mem_map.mp h with ⟨e2, he2, hno⟩
          exact Or.inr ⟨e2, he2, hno⟩
        · exact Or.inl h
      · exact hwf.2 u (by rw [hs]; simp [hu]) e he

theorem claim_C1_witness :
    ∃ s2, inject_fault_event baseScenario canTrigger 2 3 = Except.ok s2 ∧
      validate_scenario s2 = [] :=
  claim_C1_validate_after_inject baseScenario canTrigger 2 3 [] baseEgoStory [] rfl
    (by simp) rfl (by decide) (by decide)

theorem injected_events_map_no (ti : TriggerInfo) (a d : Int) (j : Nat) (es : List Event) :
    (injected_events ti a d j es).map (fun e => e.no) =
      (renumber_events (list_insert (j + 1) (create_fault_event ti (a + 1) a d) es)
        (j + 2) (a + 2)).map (fun e => e.no) := by
  rw [injected_events, update_test_procedure_order, set_tpo_from_map_no,
    update_event_references_map_no]

theorem renumber_events_getElem_lt {l : List Event} {s : Nat} (n : Int) {i : Nat}
    (h1 : i < s) (h2 : i < l.length) :
    (renumber_events l s n)[i]? = l[i]? := by
  rw [renumber_events, List.getElem?_append_left (by rw [List.length_take]; omega),
    List.getElem?_take, if_pos h1]

theorem update_fault_trigger (a d : Int) :
    update_trigger_references (a + 1) (fault_trigger a d) = fault_trigger a d := by
  simp [update_trigger_references, fault_trigger, update_condition_refs, update_param_ref,
    show ¬ (a + 1 ≤ a) by omega]

theorem injected_events_getElem (ti : TriggerInfo) (a d : Int) {j : Nat} {es : List Event}
    (hj : j < es.length) :
    ∃ e, (injected_events ti a d j es)[j + 1]? = some e ∧ e.no = a + 1 ∧
      e.start_trigger = some (fault_trigger a d) := by
  have hlen : j + 1 < (injected_events ti a d j es).length := by
    rw [injected_events_length]
    omega
  obtain ⟨e, he⟩ : ∃ e, (injected_events ti a d j es)[j + 1]? = some e :=
    ⟨_, List.getElem?_eq_getElem hlen⟩
  have hins : (list_insert (j + 1) (create_fault_event ti (a + 1) a d) es)[j + 1]? =
      some (create_fault_event ti (a + 1) a d) :=
    list_insert_getElem_self _ _ _ (by omega)
  refine ⟨e, he, ?_, ?_⟩
  · have h1 : ((injected_events ti a d j es).map (fun e => e.no))[j + 1]? = some e.no := by
      rw [List.getElem?_map, he]
      rfl
    rw [injected_events_map_no, List.getElem?_map,
      renumber_events_getElem_lt (a + 2) (by omega) (by rw [list_insert_length]; omega),
      hins] at h1
    simpa [create_fault_event] using h1.symm
  · have h1 : ((injected_events ti a d j es).map (fun e => e.start_trigger))[j + 1]? =
        some e.start_trigger := by
      rw [List.getElem?_map, he]
      rfl
    rw [injected_events_trig_map, List.getElem?_map, hins] at h1
    simp only [Option.map_some', create_fault_event, update_fault_trigger] at h1
    simpa using h1.symm


/-- Claim C2 (amended): after renumbering, `inject_fault_event` rewrites references
only within the mutated (first `"ego"`) timeline, not scenario-wide: the
other timelines are returned verbatim, and within the mutated timeline every
event's trigger equals the spec-worded shift — an `event_no` parameter whose
stored integer is `≥ anchorNumber + 1` is incremented by 1, anything else is
left unchanged — applied to the corresponding trigger of the post-splice
event list. -/
theorem claim_C2_reference_rewrite (s : Scenario) (ti : TriggerInfo) (a d : Int)
    (pre : List ActorStory) (t : ActorStory) (post : List ActorStory) (j : Nat)
    (hs : s.story = pre ++ t :: post)
    (hpre : ∀ u ∈ pre, u.actor_name ≠ "ego")
    (ht : t.actor_name = "ego")
    (hfind : find_insert_position t.events a = (j : Int) + 1) :
    ∃ es2, inject_fault_event s ti a d =
        Except.ok { s with story := pre ++ { t with events := es2 } :: post } ∧
      es2.map (fun e => e.start_trigger) =
        (list_insert (j + 1) (create_fault_event ti (a + 1) a d) t.events).map
          (fun e => e.start_trigger.map (spec_shift_trigger (a + 1))) := by
  refine ⟨injected_events ti a d j t.events,
    inject_ok_story s ti a d pre t post j hs hpre ht hfind, ?_⟩
  rw [injected_events_trig_map]
  rfl

/-- Claim C2 counterexample: injecting after anchor 1 (threshold `anchorNumber + 1
= 2`), the `other` timeline's `event_no` parameter stores the integer `2 ≥ 2`,
so the claim requires it to be rewritten to `3`; the implementation leaves
it at `2` because `_update_event_references` only walks the mutated `"ego"`
event list. -/
theorem claim_C2_counterexample :
    (inject_fault_event twoActorScenario canTrigger 1 3).toOption.bind
        (fun s2 => param_value_at s2 1 0 0 0 0) = some (JsonVal.vInt 2) ∧
      JsonVal.vInt 2 ≠ JsonVal.vInt 3 :=
  ⟨by decide, by decide⟩

theorem claim_C2_witness :
    ∃ es2, inject_fault_event baseScenario canTrigger 2 3 =
        Except.ok { baseScenario with story :=
          [] ++ { baseEgoStory with events := es2 } :: [] } ∧
      es2.map (fun e => e.start_trigger) =
        (list_insert (1 + 1) (create_fault_event canTrigger (2 + 1) 2 3)
            baseEgoStory.events).map
          (fun e => e.start_trigger.map (spec_shift_trigger (2 + 1))) :=
  claim_C2_reference_rewrite baseScenario canTrigger 2 3 [] baseEgoStory [] 1 rfl
    (by simp) rfl (by decide)

/-- Claim C4 (amended): on success, the event spliced in at index `anchor index +
1` has number `anchorNumber + 1` and its `start_trigger` is exactly
`fault_trigger anchorNumber delaySeconds`: a single condition group with one
condition of kind `event_state` whose parameters are `event_no =
anchorNumber` and `state = "completeState"` (not `"completed"`), with the
condition's `delay` equal to the `delay` argument. -/
theorem claim_C4_inserted_event (s : Scenario) (ti : TriggerInfo) (a d : Int)
    (pre : List ActorStory) (t : ActorStory) (post : List ActorStory) (j : Nat)
    (hs : s.story = pre ++ t :: post)
    (hpre : ∀ u ∈ pre, u.actor_name ≠ "ego")
    (ht : t.actor_name = "ego")
    (hfind : find_insert_position t.events a = (j : Int) + 1) :
    ∃ es2, inject_fault_event s ti a d =
        Except.ok { s with story := pre ++ { t with events := es2 } :: post } ∧
      ∃ e, es2[j + 1]? = some e ∧ e.no = a + 1 ∧
        e.start_trigger = some (fault_trigger a d) :=
  ⟨injected_events ti a d j t.events,
    inject_ok_story s ti a d pre t post j hs hpre ht hfind,
    injected_events_getElem ti a d (find_insert_inv hfind)⟩

/-- Claim C4 counterexample: the `state` parameter of the inserted event's trigger
condition holds the string `"completeState"`, not `"completed"` as the claim
states. -/
theorem claim_C4_counterexample :
    (inject_fault_event baseScenario canTrigger 2 3).toOption.bind
        (fun s2 => param_value_at s2 0 2 0 0 1) = some (JsonVal.vStr "completeState") ∧
      JsonVal.vStr "completeState" ≠ JsonVal.vStr "completed" :=
  ⟨by decide, by decide⟩

theorem claim_C4_witness :
    ∃ es2, inject_fault_event baseScenario canTrigger 2 3 =
        Except.ok { baseScenario with story :=
          [] ++ { baseEgoStory with events := es2 } :: [] } ∧
      ∃ e, es2[1 + 1]? = some e ∧ e.no = 2 + 1 ∧
        e.start_trigger = some (fault_trigger 2 3) :=
  claim_C4_inserted_event baseScenario canTrigger 2 3 [] baseEgoStory [] 1 rfl
    (by simp) rfl (by decide)

/-- Claim C5 (amended): for every input scenario whose target (first `"ego"`)
timeline is nonempty and contains no event with the given anchor number,
`inject_fault_event` fails with the distinct error `anchorNotFound` carrying
the offending number, and no mutated scenario is produced.  (If the target
timeline is empty the earlier `emptyTimeline` check fires instead — see the
counterexample.) -/
theorem claim_C5_anchor_not_found (s : Scenario) (ti : TriggerInfo) (a d : Int)
    (pre : List ActorStory) (t : ActorStory) (post : List ActorStory)
    (hs : s.story = pre ++ t :: post)
    (hpre : ∀ u ∈ pre, u.actor_name ≠ "ego")
    (ht : t.actor_name = "ego")
    (hne : t.events ≠ [])
    (hnoanchor : ∀ e ∈ t.events, e.no ≠ a) :
    inject_fault_event s ti a d = Except.error (InjectError.anchorNotFound a) := by
  have hstory : ¬ (s.story = []) := by
    rw [hs]
    simp
  simp only [inject_fault_event, if_neg hstory]
  rw [hs, update_ego_append pre t post hpre ht]
  have hfind : find_insert_position t.events a = -1 := find_pos_not_found hnoanchor 0
  simp only [inject_into_events, if_neg hne, hfind, if_pos rfl]
  rfl

/-- Claim C5 counterexample: the empty `"ego"` timeline contains no event numbered
1, yet the call fails with `emptyTimeline`, not `anchorNotFound 1`. -/
theorem claim_C5_counterexample :
    inject_fault_event egoEmptyScenario canTrigger 1 3 =
        Except.error InjectError.emptyTimeline ∧
      InjectError.emptyTimeline ≠ InjectError.anchorNotFound 1 :=
  ⟨by decide, by decide⟩

theorem claim_C5_witness :
    inject_fault_event egoOnlyScenario canTrigger 5 3 =
      Except.error (InjectError.anchorNotFound 5) :=
  claim_C5_anchor_not_found egoOnlyScenario canTrigger 5 3 []
    { actor_name := "ego", events := [egoEv 1 none "engine_startup_operation"] } [] rfl
    (by simp) rfl (by simp) (by decide)

/-- Claim C6 (amended): `inject_fault_event` takes no actor-name argument; the
mutated timeline is fixed to the first story entry named `"ego"`.  For every
scenario whose (nonempty) story contains no timeline named `"ego"` the call
fails with the distinct error `actorNotFound`. -/
theorem claim_C6_actor_not_found (s : Scenario) (ti : TriggerInfo) (a d : Int)
    (hne : s.story ≠ [])
    (hno : ∀ u ∈ s.story, u.actor_name ≠ "ego") :
    inject_fault_event s ti a d = Except.error InjectError.actorNotFound := by
  simp only [inject_fault_event, if_neg hne, update_ego_none hno]

/-- Claim C6 counterexample: the claim's universally quantified actor name is
instantiated with `"alice"`: the scenario has no `"alice"` timeline, yet the
call does not fail with `actorNotFound` — there is no actor-name parameter
and the fixed `"ego"` timeline is mutated successfully. -/
theorem claim_C6_counterexample :
    (∀ u ∈ egoOnlyScenario.story, u.actor_name ≠ "alice") ∧
      inject_fault_event egoOnlyScenario canTrigger 1 3 ≠
        Except.error InjectError.actorNotFound :=
  ⟨by decide, by decide⟩

theorem claim_C6_witness :
    inject_fault_event aliceScenario canTrigger 1 3 =
      Except.error InjectError.actorNotFound :=
  claim_C6_actor_not_found aliceScenario canTrigger 1 3 (by simp [aliceScenario])
    (by decide)

/-- Claim C7 (amended): `inject_fault_event` performs no validation of the delay
argument: with the normal success preconditions, a negative delay is
accepted — the call succeeds and the inserted condition stores the negative
delay verbatim (see `fault_trigger`). -/
theorem claim_C7_negative_delay_accepted (s : Scenario) (ti : TriggerInfo) (a d : Int)
    (pre : List ActorStory) (t : ActorStory) (post : List ActorStory) (j : Nat)
    (hs : s.story = pre ++ t :: post)
    (hpre : ∀ u ∈ pre, u.actor_name ≠ "ego")
    (ht : t.actor_name = "ego")
    (hfind : find_insert_position t.events a = (j : Int) + 1)
    (_hd : d < 0) :
    ∃ es2, inject_fault_event s ti a d =
        Except.ok { s with story := pre ++ { t with events := es2 } :: post } ∧
      (es2.map (fun e => e.start_trigger))[j + 1]? = some (some (fault_trigger a d)) := by
  refine ⟨injected_events ti a d j t.events,
    inject_ok_story s ti a d pre t post j hs hpre ht hfind, ?_⟩
  rcases injected_events_getElem ti a d (find_insert_inv hfind) with ⟨e, he, _, htr⟩
  rw [List.getElem?_map, he]
  simp [htr]

/-- Claim C7 counterexample: a call with `delay = -1` succeeds (the claim requires
failure with `InvalidDelay`, an error the implementation never raises), and
the inserted condition stores the delay `-1` unchanged. -/
theorem claim_C7_counterexample :
    isSuccess (inject_fault_event egoOnlyScenario canTrigger 1 (-1)) = true ∧
      (inject_fault_event egoOnlyScenario canTrigger 1 (-1)).toOption.bind
        (fun s2 => delay_at s2 0 1 0 0) = some (-1) :=
  ⟨by decide, by decide⟩

theorem claim_C7_witness :
    ∃ es2, inject_fault_event egoOnlyScenario canTrigger 1 (-2) =
        Except.ok { egoOnlyScenario with story :=
          [] ++ { actor_name := "ego"
                , events := es2 } :: [] } ∧
      (es2.map (fun e => e.start_trigger))[0 + 1]? = some (some (fault_trigger 1 (-2))) :=
  claim_C7_negative_delay_accepted egoOnlyScenario canTrigger 1 (-2) []
    { actor_name := "ego", events := [egoEv 1 none "engine_startup_operation"] } [] 0 rfl
    (by simp) rfl (by decide) (by decide)

theorem fault_value_param_eq (ti : TriggerInfo) :
    fault_value_param ti =
      { rule := none, name := "value"
      , value := JsonVal.vStr (match ti.value with | some v => pyStr v | none => "1")
      , unit := "" } := by
  cases hv : ti.value <;> simp [fault_value_param, hv]

/-- Claim C8: the inserted event's action parameters are shaped by the action
type: a type containing `"communication_error"` gets the `value` parameter
(string form of the trigger's value, `"1"` when absent, unit `""`) plus a
`target` parameter exactly when the trigger supplies one; type `"brake"`
gets the single `value` parameter with unit forced to `"%"`; type
`"steering"` gets exactly `target_rudder_angle` (the trigger's value,
default 45, unit `"deg"`) and `steering_time` (fixed 1, unit `"s"`); every
other type gets the single `value` parameter with unit `""`. -/
theorem claim_C8_action_params (ti : TriggerInfo) (m tno d : Int) :
    (strContainsSub (ti.action_type.getD "") "communication_error" = true →
      (create_fault_event ti m tno d).action.params =
        { rule := none, name := "value"
        , value := JsonVal.vStr (match ti.value with | some v => pyStr v | none => "1")
        , unit := "" } ::
        (match ti.target with
         | some tg => [{ rule := none, name := "target"
                       , value := JsonVal.vStr tg, unit := "" }]
         | none => [])) ∧
    (ti.action_type.getD "" = "brake" →
      (create_fault_event ti m tno d).action.params =
        [{ rule := none, name := "value"
         , value := JsonVal.vStr (match ti.value with | some v => pyStr v | none => "1")
         , unit := "%" }]) ∧
    (ti.action_type.getD "" = "steering" →
      (create_fault_event ti m tno d).action.params =
        [{ rule := none, name := "target_rudder_angle"
         , value := ti.value.getD (JsonVal.vInt 45), unit := "deg" },
         { rule := none, name := "steering_time"
         , value := JsonVal.vInt 1, unit := "s" }]) ∧
    (strContainsSub (ti.action_type.getD "") "communication_error" = false →
      ti.action_type.getD "" ≠ "brake" → ti.action_type.getD "" ≠ "steering" →
      (create_fault_event ti m tno d).action.params =
        [{ rule := none, name := "value"
         , value := JsonVal.vStr (match ti.value with | some v => pyStr v | none => "1")
         , unit := "" }]) := by
  refine ⟨?_, ?_, ?_, ?_⟩
  · intro hcomm
    show fault_action_params ti = _
    simp only [fault_action_params]
    cases htg : ti.target with
    | some tg =>
      rw [if_pos ⟨hcomm, by simp [htg]⟩, fault_value_param_eq]
      simp [htg]
    | none =>
      rw [if_neg (fun h => h.2 rfl)]
      have hat : ¬ (ti.action_type.getD "" = "brake") := by
        intro h
        rw [h] at hcomm
        exact absurd hcomm (by decide)
      have hat2 : ¬ (ti.action_type.getD "" = "steering") := by
        intro h
        rw [h] at hcomm
        exact absurd hcomm (by decide)
      rw [if_neg hat, if_neg hat2, fault_value_param_eq]
  · intro hb
    show fault_action_params ti = _
    simp only [fault_action_params]
    have hcomm : strContainsSub (ti.action_type.getD "") "communication_error" = false := by
      rw [hb]
      decide
    rw [if_neg (fun h => Bool.false_ne_true (hcomm ▸ h.1)), if_pos hb, fault_value_param_eq]
  · intro hst
    show fault_action_params ti = _
    simp only [fault_action_params]
    have hcomm : strContainsSub (ti.action_type.getD "") "communication_error" = false := by
      rw [hst]
      decide
    have hbr : ¬ (ti.action_type.getD "" = "brake") := by
      rw [hst]
      decide
    rw [if_neg (fun h => Bool.false_ne_true (hcomm ▸ h.1)), if_neg hbr, if_pos hst]
  · intro hcomm hbr hstr
    show fault_action_params ti = _
    simp only [fault_action_params]
    rw [if_neg (fun h => Bool.false_ne_true (hcomm ▸ h.1)), if_neg hbr, if_neg hstr,
      fault_value_param_eq]

theorem claim_C8_witness :
    (create_fault_event steerTrigger 3 2 5).action.params =
      [{ rule := none, name := "target_rudder_angle"
       , value := JsonVal.vInt 30, unit := "deg" },
       { rule := none, name := "steering_time"
       , value := JsonVal.vInt 1, unit := "s" }] := by
  have h := (claim_C8_action_params steerTrigger 3 2 5).2.2.1 (by decide)
  simpa [steerTrigger] using h

/-- Claim C9: the validator returns the empty list exactly when the scenario is
well-formed — in every timeline the n-th event (1-based) is numbered n, and
every integer `event_no` of an `eventState` condition is the sentinel 0 or
the number of some event of the same timeline.  (Each contiguity mismatch
and each dangling reference contributes one `Violation` carrying the data of
the source's message, and `validate_scenario` concatenates all of them
without short-circuiting, by construction.) -/
theorem claim_C9_validator_iff (s : Scenario) :
    validate_scenario s = [] ↔ SpecWellFormed s :=
  validate_nil_iff s

/-- Claim C10: an `event_no` parameter holding a non-integer value is skipped by
both operations: the reference rewrite leaves the parameter unchanged
regardless of the threshold, and everything the validator extracts (and so
everything it could ever report as dangling) originates from a parameter
holding an integer. -/
theorem claim_C10_nonint_skipped (i : Int) (p : Param) (tr : StartTrigger) (r : Int)
    (hp : p.name = "event_no")
    (hni : ∀ n : Int, p.value ≠ JsonVal.vInt n)
    (hr : r ∈ extract_referenced_events tr) :
    update_param_ref i p = p ∧
      ∃ g ∈ tr.condition_groups, ∃ c ∈ g.conditions, c.type = "event_state" ∧
        ∃ q ∈ c.params, q.name = "event_no" ∧ q.value = JsonVal.vInt r := by
  refine ⟨?_, mem_extract_trigger.mp hr⟩
  cases hv : p.value with
  | vInt n => exact absurd hv (hni n)
  | vStr str => simp [update_param_ref, hp, hv]

theorem claim_C10_witness :
    update_param_ref 1 strParam = strParam ∧
      ∃ g ∈ (trigOn 7).condition_groups, ∃ c ∈ g.conditions, c.type = "event_state" ∧
        ∃ q ∈ c.params, q.name = "event_no" ∧ q.value = JsonVal.vInt 7 :=
  claim_C10_nonint_skipped 1 strParam (trigOn 7) 7 rfl
    (by intro n h; simp [strParam] at h) (by decide)
